import Mathlib

/-!
Shallow embedding of `csv.go` from the gofakeit repository: the `CSV`
generation function (delimiter normalization, validation, header and body
row construction, delimited-text encoding), together with the parts of its
environment it consumes (the function registry interface and the
`encoding/csv` writer semantics it links against).

Modelling conventions:
* Go strings are Lean `String`s; `map[string][]string` parameter bags are
  association lists.
* Go `error` values are plain `String`s (the code builds every error with
  `errors.New` on a message, and foreign generator errors are opaque), so a
  call returning `(T, error)` becomes `Except String T`.
* `CSV` takes a `*CSVOptions` and mutates `co.Delimiter` in place during
  normalization; the embedding returns the final record alongside the
  result to make that visible: `CSV lookup co : Except String String × CSVOptions`.
* The output `[]byte` is modelled as the `String` whose characters are the
  written runes (the buffer only ever receives valid UTF-8).
* `bytes.Buffer` writes cannot fail, so `w.Error()` after `Flush` is always
  `nil`; the writer is therefore modelled as pure concatenation of encoded
  records, in write order.
-/

deriving instance DecidableEq for Except

namespace Gofakeit

/-- `map[string][]string` (gofakeit's `MapParams`), as an association list. -/
def MapParams : Type := List (String × List String)

instance : DecidableEq MapParams := by
  unfold MapParams
  infer_instance

/-- One field descriptor: `Name`, generator `Function` name, `Params` bag. -/
structure Field where
  Name : String
  Function : String
  Params : MapParams
deriving DecidableEq

/-- Dynamic Go values a generator may return (`interface{}`), closed to the
shapes needed here. -/
inductive GoValue where
  | vStr (s : String)
  | vInt (n : Int)
  | vBool (b : Bool)
deriving DecidableEq

/-- `fmt.Sprintf("%v", value)`: the default formatting Go applies uniformly
to any generator result. -/
def sprintfV : GoValue → String
  | .vStr s => s
  | .vInt n => toString n
  | .vBool b => if b then "true" else "false"

/-- Registry entry (`Info`): only the `Call` method is consumed by `CSV`
(`funcInfo.Call(&field.Params, funcInfo)`); the self argument is implicit. -/
structure Info where
  Call : MapParams → Except String GoValue

/-- The function registry `GetFuncLookup`, abstracted as a lookup map. -/
def Lookup : Type := String → Option Info

/-- Options record for `CSV` (`CSVOptions`). -/
structure CSVOptions where
  Delimiter : String
  RowCount : Int
  Fields : List Field
deriving DecidableEq

/-- `errors.New("Invalid delimiter type")`. -/
def invalidDelimiterErr : String := "Invalid delimiter type"

/-- `errors.New("Must pass fields in order to build json object(s)")`. -/
def missingFieldsErr : String := "Must pass fields in order to build json object(s)"

/-- `errors.New("Must have row count")`. -/
def missingRowCountErr : String := "Must have row count"

/-- `errors.New("Invalid function, " + field.Function + " does not exist")`. -/
def unknownFunctionErr (name : String) : String :=
  "Invalid function, " ++ name ++ " does not exist"

/-- `strings.ToLower`, restricted to the ASCII mapping: Go's case folding
agrees with this on every string whose lowercase form could equal `"tab"`,
the only comparison `CSV` makes with it. -/
def toLowerGo (s : String) : String := String.mk (s.data.map Char.toLower)

/-- Delimiter normalization, lines 22-27 of `csv.go`: empty becomes a comma,
then a case-insensitive `"tab"` becomes a tab character. -/
def normalizeDelimiter (d : String) : String :=
  let d1 := if d = "" then "," else d
  if toLowerGo d1 = "tab" then "\t" else d1

/-- Does the character list contain `c`? (`strings.ContainsRune` /
one character of `strings.ContainsAny`.) -/
def hasChar (l : List Char) (c : Char) : Bool := l.any (fun x => x = c)

/-- `unicode.IsSpace` restricted to the characters that can occur here
(Latin-1 white space). -/
def isSpaceGo (c : Char) : Bool :=
  c = ' ' || c = '\t' || c = '\n' || c = '\u000B' || c = '\u000C' || c = '\r' ||
  c = '\u0085' || c = '\u00A0'

/-- `encoding/csv` `Writer.fieldNeedsQuotes` (default writer settings): a
field is quoted when it is `\.`, contains the delimiter, a quote, CR or LF
(or any space when the delimiter is a space), or starts with white space. -/
def fieldNeedsQuotes (comma : Char) (field : String) : Bool :=
  if field.data = [] then false
  else if field = "\\." then true
  else if comma = ' ' then field.data.any isSpaceGo
  else if hasChar field.data comma || hasChar field.data '"' ||
          hasChar field.data '\r' || hasChar field.data '\n' then true
  else isSpaceGo (field.data.headD ' ')

/-- Quote doubling inside a quoted field: each `"` becomes `""` (with
`UseCRLF = false`, CR and LF pass through unchanged). -/
def doubleQuotes : List Char → List Char
  | [] => []
  | c :: rest => if c = '"' then '"' :: '"' :: doubleQuotes rest else c :: doubleQuotes rest

/-- `encoding/csv` writes one field: quoted with doubled quotes when
`fieldNeedsQuotes`, verbatim otherwise. -/
def writeField (comma : Char) (field : String) : String :=
  if fieldNeedsQuotes comma field then
    String.mk ( '"' :: doubleQuotes field.data ++ [ '"' ])
  else field

/-- The characters of one record before its terminator: fields in order,
separated by the delimiter (`Writer.Write`). -/
def writeRecordChars (comma : Char) : List String → List Char
  | [] => []
  | [f] => (writeField comma f).data
  | f :: fs => (writeField comma f).data ++ comma :: writeRecordChars comma fs

/-- One full record as written by `Writer.Write` with `UseCRLF = false`:
the separated fields followed by `\n`. -/
def writeRecord (comma : Char) (r : List String) : String :=
  String.mk (writeRecordChars comma r ++ [ '\n' ])

/-- Resolution of one cell for row index `i` (lines 58-75 of `csv.go`):
the `"autoincrement"` sentinel short-circuits to the printed row index;
otherwise the registry is consulted, a missing entry is an error, a
generator error is returned as is, and a generator value is formatted with
`%v`. -/
def cellValue (lookup : Lookup) (i : Int) (field : Field) : Except String String :=
  if field.Function = "autoincrement" then .ok (toString i)
  else
    match lookup field.Function with
    | none => .error (unknownFunctionErr field.Function)
    | some funcInfo =>
      match funcInfo.Call field.Params with
      | .error err => .error err
      | .ok value => .ok (sprintfV value)

/-- One body row `vr`: the cells of all fields in order, aborting at the
first failing cell (the inner loop of lines 55-76). -/
def buildRow (lookup : Lookup) (i : Int) : List Field → Except String (List String)
  | [] => .ok []
  | f :: fs =>
    match cellValue lookup i f with
    | .error e => .error e
    | .ok v =>
      match buildRow lookup i fs with
      | .error e => .error e
      | .ok vs => .ok (v :: vs)

/-- `n` consecutive body rows starting at row index `i`, aborting at the
first failing row. -/
def buildRows (lookup : Lookup) (fields : List Field) (i : Int) : Nat → Except String (List (List String))
  | 0 => .ok []
  | n + 1 =>
    match buildRow lookup i fields with
    | .error e => .error e
    | .ok r =>
      match buildRows lookup fields (i + 1) n with
      | .error e => .error e
      | .ok rs => .ok (r :: rs)

/-- The whole body: the loop `for i := 1; i < int(co.RowCount); i++` runs
`i` over `1, …, rowCount-1`, i.e. `rowCount.toNat - 1` iterations. -/
def buildBody (lookup : Lookup) (fields : List Field) (rowCount : Int) : Except String (List (List String)) :=
  buildRows lookup fields 1 (rowCount.toNat - 1)

/-- The header row (lines 47-50): each field's `Name`, in order. -/
def headerRow (fields : List Field) : List String := fields.map Field.Name

/-- `CSV` after delimiter normalization: validation of the (already
normalized) delimiter, the field list and the row count, then header and
body generation and encoding. The options record is threaded through so the
caller-visible state of `*co` is explicit. -/
def CSVrun (lookup : Lookup) (co : CSVOptions) : Except String String × CSVOptions :=
  if co.Delimiter ≠ "," ∧ co.Delimiter ≠ "\t" then (.error invalidDelimiterErr, co)
  else if co.Fields = [] then (.error missingFieldsErr, co)
  else if co.RowCount ≤ 0 then (.error missingRowCountErr, co)
  else
    let comma := co.Delimiter.data.headD ','
    match buildBody lookup co.Fields co.RowCount with
    | .error e => (.error e, co)
    | .ok rows =>
      (.ok (String.join ((headerRow co.Fields :: rows).map (writeRecord comma))), co)

/-- `CSV(co *CSVOptions) ([]byte, error)`, lines 20-88 of `csv.go`: the
in-place delimiter normalization followed by `CSVrun`. -/
def CSV (lookup : Lookup) (co : CSVOptions) : Except String String × CSVOptions :=
  CSVrun lookup { co with Delimiter := normalizeDelimiter co.Delimiter }

/-! ### A standard RFC-4180 reader, the spec's reference decoder

Modelled from the spec: the round-trip property is stated against "a
standard RFC-4180 CSV reader using the same delimiter" (the repository
itself contains no reader). A quoted field ends at an unpaired quote, with
`""` denoting one literal quote; a bare field extends to the next delimiter
or line end. -/

/-- May a character occur in a bare (unquoted) field? Anything except the
delimiter and the record terminator. -/
def bareChar (d c : Char) : Bool := !(c = d || c = '\n')

/-- Read the remainder of a quoted field, the opening quote already
consumed: returns the decoded content and the input following the closing
quote. `""` is a literal quote; an unterminated field is an error. -/
def readQuotedBody : List Char → Option (List Char × List Char)
  | [] => none
  | c :: rest =>
    if c = '"' then
      match rest with
      | c2 :: rest2 =>
        if c2 = '"' then (readQuotedBody rest2).map (fun p => ( '"' :: p.1, p.2))
        else some ([], rest)
      | [] => some ([], [])
    else (readQuotedBody rest).map (fun p => (c :: p.1, p.2))

/-- Read one field: quoted if it starts with a quote, bare otherwise.
Returns the field content and the rest of the input (which starts with the
delimiter or terminator that ended the field, if any). -/
def readField (d : Char) : List Char → Option (List Char × List Char)
  | [] => some ([], [])
  | c :: rest =>
    if c = '"' then readQuotedBody rest
    else some ((c :: rest).takeWhile (bareChar d), (c :: rest).dropWhile (bareChar d))

/-- Read one record: fields separated by the delimiter, ended by `\n` or by
the end of the input. `fuel` bounds the number of fields. -/
def readRecordAux (d : Char) : Nat → List Char → Option (List String × List Char)
  | 0, _ => none
  | fuel + 1, input =>
    match readField d input with
    | none => none
    | some (f, rest) =>
      match rest with
      | [] => some ([String.mk f], [])
      | c :: rest2 =>
        if c = d then (readRecordAux d fuel rest2).map (fun p => (String.mk f :: p.1, p.2))
        else if c = '\n' then some ([String.mk f], rest2)
        else none

/-- Read one record from a string (a record has at most one field per
input character plus one, so the fuel suffices for any input). -/
def readRecord (d : Char) (s : String) : Option (List String × List Char) :=
  readRecordAux d (s.data.length + 1) s.data

/-! ### Structural lemmas about row and body construction -/

theorem buildRow_ok_length {lookup : Lookup} {i : Int} {fields : List Field}
{cells : List String} (h : buildRow lookup i fields = .ok cells) :
cells.length = fields.length := by
  induction fields generalizing cells with
  | nil =>
    simp only [buildRow, Except.ok.injEq] at h
    subst h
    rfl
  | cons f fs ih =>
    simp only [buildRow] at h
    cases hc : cellValue lookup i f with
    | error e => simp [hc] at h
    | ok v =>
      cases hr : buildRow lookup i fs with
      | error e => simp [hc, hr] at h
      | ok vs =>
        simp only [hc, hr, Except.ok.injEq] at h
        subst h
        simp [ih hr]

theorem buildRow_ok_get {lookup : Lookup} {i : Int} {fields : List Field}
{cells : List String} (h : buildRow lookup i fields = .ok cells)
(j : Nat) (hj : j < fields.length) :
∃ hj2 : j < cells.length,
  cellValue lookup i (fields.get ⟨j, hj⟩) = .ok (cells.get ⟨j, hj2⟩) := by
  induction fields generalizing cells j with
  | nil => exact absurd hj (by simp)
  | cons f fs ih =>
    simp only [buildRow] at h
    cases hv : cellValue lookup i f with
    | error e => simp [hv] at h
    | ok v =>
      cases hr : buildRow lookup i fs with
      | error e => simp [hv, hr] at h
      | ok vs =>
        simp only [hv, hr, Except.ok.injEq] at h
        subst h
        cases j with
        | zero => exact ⟨by simp, by simpa using hv⟩
        | succ j =>
          obtain ⟨hj2, hcell⟩ := ih hr j (by simpa using hj)
          exact ⟨by simpa using Nat.succ_lt_succ hj2, hcell⟩

theorem buildRow_prefix_error {lookup : Lookup} {i : Int} {pre post : List Field}
{fld : Field} {e : String}
(hpre : ∀ f ∈ pre, ∃ v, cellValue lookup i f = .ok v)
(hf : cellValue lookup i fld = .error e) :
buildRow lookup i (pre ++ fld :: post) = .error e := by
  induction pre with
  | nil => simp [buildRow, hf]
  | cons p ps ih =>
    obtain ⟨v, hv⟩ := hpre p (by simp)
    have := ih (fun f hfm => hpre f (by simp [hfm]))
    simp [buildRow, hv, this]

theorem buildRows_ok_length {lookup : Lookup} {fields : List Field} {i : Int}
{n : Nat} {rows : List (List String)}
(h : buildRows lookup fields i n = .ok rows) : rows.length = n := by
  induction n generalizing i rows with
  | zero =>
    simp only [buildRows, Except.ok.injEq] at h
    subst h
    rfl
  | succ n ih =>
    simp only [buildRows] at h
    cases hr : buildRow lookup i fields with
    | error e => simp [hr] at h
    | ok r =>
      cases hrs : buildRows lookup fields (i + 1) n with
      | error e => simp [hr, hrs] at h
      | ok rs =>
        simp only [hr, hrs, Except.ok.injEq] at h
        subst h
        simp [ih hrs]

theorem buildRows_ok_get {lookup : Lookup} {fields : List Field} {i : Int}
{n : Nat} {rows : List (List String)}
(h : buildRows lookup fields i n = .ok rows) (k : Nat) (hk : k < n) :
∃ hk2 : k < rows.length,
  buildRow lookup (i + k) fields = .ok (rows.get ⟨k, hk2⟩) := by
  induction n generalizing i rows k with
  | zero => exact absurd hk (by simp)
  | succ n ih =>
    simp only [buildRows] at h
    cases hr : buildRow lookup i fields with
    | error e => simp [hr] at h
    | ok r =>
      cases hrs : buildRows lookup fields (i + 1) n with
      | error e => simp [hr, hrs] at h
      | ok rs =>
        simp only [hr, hrs, Except.ok.injEq] at h
        subst h
        cases k with
        | zero => exact ⟨by simp, by simpa using hr⟩
        | succ k =>
          obtain ⟨hk2, hrow⟩ := ih hrs k (by omega)
          refine ⟨by simpa using Nat.succ_lt_succ hk2, ?_⟩
          have hcast : i + ((k + 1 : Nat) : Int) = (i + 1) + (k : Int) := by
            push_cast
            ring
          rw [hcast]
          simpa using hrow

theorem buildRows_prefix_error {lookup : Lookup} {fields : List Field} {i : Int}
{n m : Nat} {e : String} (hm : m < n)
(hpre : ∀ m2 : Nat, m2 < m → ∃ r, buildRow lookup (i + m2) fields = .ok r)
(herr : buildRow lookup (i + m) fields = .error e) :
buildRows lookup fields i n = .error e := by
  induction n generalizing i m with
  | zero => exact absurd hm (by simp)
  | succ n ih =>
    cases m with
    | zero =>
      simp only [Nat.cast_zero, add_zero] at herr
      simp [buildRows, herr]
    | succ m =>
      obtain ⟨r, hr⟩ := hpre 0 (by omega)
      simp only [Nat.cast_zero, add_zero] at hr
      have hrec : buildRows lookup fields (i + 1) n = .error e := by
        refine ih (m := m) (by omega) ?_ ?_
        · intro m2 hm2
          obtain ⟨r2, hr2⟩ := hpre (m2 + 1) (by omega)
          refine ⟨r2, ?_⟩
          rw [show (i + 1) + (m2 : Int) = i + ((m2 : Nat) + 1 : Nat) by push_cast; ring]
          exact hr2
        · rw [show (i + 1) + (m : Int) = i + ((m : Nat) + 1 : Nat) by push_cast; ring]
          exact herr
      simp [buildRows, hr, hrec]

/-! ### Characterization of `CSV` on validated requests -/

theorem CSV_ok_spec {lookup : Lookup} {co : CSVOptions} {rows : List (List String)}
(hd : normalizeDelimiter co.Delimiter = "," ∨ normalizeDelimiter co.Delimiter = "\t")
(hf : co.Fields ≠ []) (hr : 0 < co.RowCount)
(hb : buildBody lookup co.Fields co.RowCount = .ok rows) :
CSV lookup co =
  (.ok (String.join ((headerRow co.Fields :: rows).map
    (writeRecord ((normalizeDelimiter co.Delimiter).data.headD ',')))),
   { co with Delimiter := normalizeDelimiter co.Delimiter }) := by
  obtain ⟨d, rc, fs⟩ := co
  simp only [CSV, CSVrun] at *
  rcases hd with hd | hd <;>
    rw [hd] <;>
    simp [hf, show ¬(rc ≤ 0) from by omega, hb]

theorem CSV_bodyError_spec {lookup : Lookup} {co : CSVOptions} {e : String}
(hd : normalizeDelimiter co.Delimiter = "," ∨ normalizeDelimiter co.Delimiter = "\t")
(hf : co.Fields ≠ []) (hr : 0 < co.RowCount)
(hb : buildBody lookup co.Fields co.RowCount = .error e) :
CSV lookup co = (.error e, { co with Delimiter := normalizeDelimiter co.Delimiter }) := by
  obtain ⟨d, rc, fs⟩ := co
  simp only [CSV, CSVrun] at *
  rcases hd with hd | hd <;>
    rw [hd] <;>
    simp [hf, show ¬(rc ≤ 0) from by omega, hb]

theorem CSVrun_snd (lookup : Lookup) (co : CSVOptions) : (CSVrun lookup co).2 = co := by
  simp only [CSVrun]
  split
  · rfl
  · split
    · rfl
    · split
      · rfl
      · split <;> rfl

/-! ### Claim theorems -/

/-- C1: for every valid generation request (delimiter normalizing to comma or
tab, non-empty field list, `rowCount ≥ 1`, every cell resolving), `CSV`
returns the header record followed by exactly `rowCount - 1` body records:
the body loop runs the row index from 1 up to but excluding `rowCount`. -/
theorem c1_row_count {lookup : Lookup} {co : CSVOptions} {rows : List (List String)}
(hd : normalizeDelimiter co.Delimiter = "," ∨ normalizeDelimiter co.Delimiter = "\t")
(hf : co.Fields ≠ []) (hr : 1 ≤ co.RowCount)
(hb : buildBody lookup co.Fields co.RowCount = .ok rows) :
rows.length = co.RowCount.toNat - 1 ∧
(CSV lookup co).1 = .ok (String.join ((headerRow co.Fields :: rows).map
  (writeRecord ((normalizeDelimiter co.Delimiter).data.headD ',')))) := by
  refine ⟨buildRows_ok_length hb, ?_⟩
  rw [CSV_ok_spec hd hf (by omega) hb]

theorem c1_row_count_witness :
([["1"], ["2"]] : List (List String)).length = (3 : Int).toNat - 1 ∧
(CSV (fun _ => none) ⟨"", 3, [⟨"id", "autoincrement", []⟩]⟩).1 =
  .ok (String.join ((headerRow [⟨"id", "autoincrement", []⟩] :: [["1"], ["2"]]).map
    (writeRecord ((normalizeDelimiter ("")).data.headD ',')))) :=
  @c1_row_count (fun _ => none) ⟨"", 3, [⟨"id", "autoincrement", []⟩]⟩
    [["1"], ["2"]] (by decide) (by decide) (by decide) (by decide)

/-- C2: in every produced body row, a field whose generator name is
`"autoincrement"` holds the decimal representation of the loop index
(row `k` of the body, counted from 0, was built with loop index `k + 1`),
whatever the registry maps `"autoincrement"` to: the registry is never
consulted for it. Hence all autoincrement fields of one row agree, and an
autoincrement column reads 1, 2, … down the rows. -/
theorem c2_autoincrement {lookup : Lookup} {fields : List Field} {rc : Int}
{rows : List (List String)} (hb : buildBody lookup fields rc = .ok rows)
(k j : Nat) (hk : k < rows.length) (hj : j < fields.length)
(hf : (fields.get ⟨j, hj⟩).Function = "autoincrement") :
(rows.get ⟨k, hk⟩).get? j = some (toString ((k : Int) + 1)) := by
  have hlen : rows.length = rc.toNat - 1 := buildRows_ok_length hb
  obtain ⟨hk2, hrow⟩ := buildRows_ok_get (i := 1) hb k (by omega)
  obtain ⟨hj2, hcell⟩ := buildRow_ok_get hrow j hj
  simp only [cellValue, hf, if_pos, Except.ok.injEq] at hcell
  rw [List.get?_eq_get hj2, ← hcell, Int.add_comm]

theorem c2_autoincrement_witness :
(([["1"], ["2"]] : List (List String)).get ⟨1, by decide⟩).get? 0 =
  some (toString ((1 : Int) + 1)) :=
  @c2_autoincrement (fun _ => none) [⟨"id", "autoincrement", []⟩] 3 [["1"], ["2"]]
    (by decide) 1 0 (by decide) (by decide) (by decide)

/-- C9: the header row has one cell per field, holding the field names in
descriptor order, and every body row likewise has one cell per field, cell
`j` being the resolution of field descriptor `j` at that row's loop index. -/
theorem c9_shape {lookup : Lookup} {fields : List Field} {rc : Int}
{rows : List (List String)} (hb : buildBody lookup fields rc = .ok rows) :
(headerRow fields).length = fields.length ∧
(∀ j (hj : j < fields.length),
  (headerRow fields).get? j = some (fields.get ⟨j, hj⟩).Name) ∧
∀ k (hk : k < rows.length),
  (rows.get ⟨k, hk⟩).length = fields.length ∧
  ∀ j (hj : j < fields.length),
    (rows.get ⟨k, hk⟩).get? j =
      (cellValue lookup (1 + (k : Int)) (fields.get ⟨j, hj⟩)).toOption := by
  have hlen : rows.length = rc.toNat - 1 := buildRows_ok_length hb
  refine ⟨by simp [headerRow], ?_, ?_⟩
  · intro j hj
    rw [List.get?_eq_get (by simpa [headerRow] using hj)]
    simp [headerRow]
  · intro k hk
    obtain ⟨hk2, hrow⟩ := buildRows_ok_get (i := 1) hb k (by omega)
    refine ⟨buildRow_ok_length hrow, ?_⟩
    intro j hj
    obtain ⟨hj2, hcell⟩ := buildRow_ok_get hrow j hj
    rw [List.get?_eq_get hj2, hcell]
    rfl

theorem c9_shape_witness :
(headerRow [⟨"id", "autoincrement", []⟩]).length = 1 ∧
(headerRow [⟨"id", "autoincrement", []⟩]).get? 0 = some ("id") ∧
(([["1"], ["2"]] : List (List String)).get ⟨0, by decide⟩).length = 1 ∧
(([["1"], ["2"]] : List (List String)).get ⟨0, by decide⟩).get? 0 =
  (cellValue (fun _ => none) (1 + ((0 : Nat) : Int))
    (([⟨"id", "autoincrement", []⟩] : List Gofakeit.Field).get ⟨0, by decide⟩)).toOption := by
  obtain ⟨h1, h2, h3⟩ := @c9_shape (fun _ => none) [⟨"id", "autoincrement", []⟩] 3
    [["1"], ["2"]] (by decide)
  obtain ⟨h4, h5⟩ := h3 0 (by decide)
  exact ⟨h1, h2 0 (by decide), h4, h5 0 (by decide)⟩

/-- C4: validation runs delimiter first, then field list, then row count,
first failure winning: a delimiter that does not normalize to comma or tab
yields `invalidDelimiterErr` whatever the fields and row count are, and a
normalizable delimiter with an empty field list yields `missingFieldsErr`
whatever the row count is. -/
theorem c4_validation_order (lookup : Lookup) (co : CSVOptions) :
(normalizeDelimiter co.Delimiter ≠ "," → normalizeDelimiter co.Delimiter ≠ "\t" →
  (CSV lookup co).1 = .error invalidDelimiterErr) ∧
((normalizeDelimiter co.Delimiter = "," ∨ normalizeDelimiter co.Delimiter = "\t") →
  co.Fields = [] → (CSV lookup co).1 = .error missingFieldsErr) := by
  obtain ⟨d, rc, fs⟩ := co
  constructor
  · intro h1 h2
    have h1b : normalizeDelimiter d ≠ "," := h1
    have h2b : normalizeDelimiter d ≠ "\t" := h2
    simp [CSV, CSVrun, h1b, h2b]
  · rintro (hd | hd) hf
    · have hdb : normalizeDelimiter d = "," := hd
      have hfb : fs = [] := hf
      simp [CSV, CSVrun, hdb, hfb]
    · have hdb : normalizeDelimiter d = "\t" := hd
      have hfb : fs = [] := hf
      simp [CSV, CSVrun, hdb, hfb]

theorem c4_validation_order_witness :
(CSV (fun _ => none) ⟨"|", -5, []⟩).1 = .error invalidDelimiterErr ∧
(CSV (fun _ => none) ⟨",", -5, []⟩).1 = .error missingFieldsErr :=
  ⟨(c4_validation_order (fun _ => none) ⟨"|", -5, []⟩).1 (by decide) (by decide),
   (c4_validation_order (fun _ => none) ⟨",", -5, []⟩).2 (by decide) (by decide)⟩

/-- C5 (counterexample): with an empty field list and `rowCount = 0`,
`CSV` returns the missing-fields error, not the missing-row-count error:
the field check runs before the row-count check. -/
theorem c5_counterexample :
(CSV (fun _ => none) ⟨",", 0, []⟩).1 = .error missingFieldsErr ∧
(CSV (fun _ => none) ⟨",", 0, []⟩).1 ≠ .error missingRowCountErr := by
  constructor <;> decide

/-- C5 (amended): for every request whose delimiter normalizes to comma or
tab and whose field list is non-empty, `rowCount ≤ 0` yields the
missing-row-count error. -/
theorem c5_row_count_error (lookup : Lookup) (co : CSVOptions)
(hd : normalizeDelimiter co.Delimiter = "," ∨ normalizeDelimiter co.Delimiter = "\t")
(hf : co.Fields ≠ []) (hr : co.RowCount ≤ 0) :
(CSV lookup co).1 = .error missingRowCountErr := by
  obtain ⟨d, rc, fs⟩ := co
  have hfb : fs ≠ [] := hf
  have hrb : rc ≤ 0 := hr
  rcases hd with hd | hd
  · have hdb : normalizeDelimiter d = "," := hd
    simp [CSV, CSVrun, hdb, hfb, hrb]
  · have hdb : normalizeDelimiter d = "\t" := hd
    simp [CSV, CSVrun, hdb, hfb, hrb]

theorem c5_row_count_error_witness :
(CSV (fun _ => none) ⟨",", 0, [⟨"id", "autoincrement", []⟩]⟩).1 =
  .error missingRowCountErr :=
  c5_row_count_error (fun _ => none) ⟨",", 0, [⟨"id", "autoincrement", []⟩]⟩
    (by decide) (by decide) (by decide)

/-- C8 (counterexample): `CSV` is not free of effects on the options
record: normalization rewrites `co.Delimiter` in place, so a caller passing
an empty delimiter gets its record back with `Delimiter = ","`. -/
theorem c8_counterexample :
(CSV (fun _ => none) ⟨"", 3, [⟨"id", "autoincrement", []⟩]⟩).2 ≠
  (⟨"", 3, [⟨"id", "autoincrement", []⟩]⟩ : CSVOptions) := by
  decide

/-- C8 (amended): `CSV` leaves `RowCount` and `Fields` (with every field's
parameter bag) unchanged; `Delimiter` is rewritten in place to its
normalized form, so a record whose delimiter is already `","` or tab comes
back entirely unchanged, on success and on error alike. -/
theorem c8_frame (lookup : Lookup) (co : CSVOptions) :
(CSV lookup co).2 = { co with Delimiter := normalizeDelimiter co.Delimiter } ∧
(CSV lookup co).2.RowCount = co.RowCount ∧
(CSV lookup co).2.Fields = co.Fields ∧
((co.Delimiter = "," ∨ co.Delimiter = "\t") → (CSV lookup co).2 = co) := by
  have hsnd : (CSV lookup co).2 = { co with Delimiter := normalizeDelimiter co.Delimiter } :=
    CSVrun_snd lookup _
  refine ⟨hsnd, by rw [hsnd], by rw [hsnd], ?_⟩
  rintro (hdl | hdl)
  · rw [hsnd, hdl, (by decide : normalizeDelimiter (",") = (",")), ← hdl]
  · rw [hsnd, hdl, (by decide : normalizeDelimiter ("\t") = ("\t")), ← hdl]

theorem c8_frame_witness :
(CSV (fun _ => none) (⟨",", 2, []⟩ : CSVOptions)).2 = (⟨",", 2, []⟩ : CSVOptions) :=
  (c8_frame (fun _ => none) ⟨",", 2, []⟩).2.2.2 (Or.inl rfl)

/-- C3: delimiter normalization: an empty delimiter behaves exactly as a
comma, a delimiter whose (ASCII) lowercase form is `"tab"` behaves exactly
as a tab character, and any other delimiter that is not `","` or `"\t"`
makes `CSV` return the invalid-delimiter error. -/
theorem c3_delimiter_normalization (lookup : Lookup) (co : CSVOptions) :
(co.Delimiter = "" → CSV lookup co = CSV lookup { co with Delimiter := "," }) ∧
(toLowerGo co.Delimiter = "tab" → CSV lookup co = CSV lookup { co with Delimiter := "\t" }) ∧
(co.Delimiter ≠ "" → co.Delimiter ≠ "," → co.Delimiter ≠ "\t" →
  toLowerGo co.Delimiter ≠ "tab" → (CSV lookup co).1 = .error invalidDelimiterErr) := by
  obtain ⟨d, rc, fs⟩ := co
  refine ⟨?_, ?_, ?_⟩
  · intro h
    subst h
    rfl
  · intro h
    have hne : d ≠ "" := by
      rintro rfl
      have hb : toLowerGo ("") = "tab" := h
      exact absurd hb (by decide)
    simp only [CSV]
    congr 1
    simp [normalizeDelimiter, hne, h]
  · intro h1 h2 h3 h4
    have hnd : normalizeDelimiter d = d := by
      simp [normalizeDelimiter, h1, h4]
    simp [CSV, CSVrun, hnd, h2, h3]

theorem c3_delimiter_normalization_witness :
CSV (fun _ => none) (⟨"", 3, [⟨"id", "autoincrement", []⟩]⟩ : CSVOptions) =
  CSV (fun _ => none) (⟨",", 3, [⟨"id", "autoincrement", []⟩]⟩ : CSVOptions) ∧
CSV (fun _ => none) (⟨"TAB", 3, [⟨"id", "autoincrement", []⟩]⟩ : CSVOptions) =
  CSV (fun _ => none) (⟨"\t", 3, [⟨"id", "autoincrement", []⟩]⟩ : CSVOptions) ∧
(CSV (fun _ => none) (⟨"|", 3, [⟨"id", "autoincrement", []⟩]⟩ : CSVOptions)).1 =
  .error invalidDelimiterErr :=
  ⟨(c3_delimiter_normalization (fun _ => none) ⟨"", 3, [⟨"id", "autoincrement", []⟩]⟩).1 rfl,
   (c3_delimiter_normalization (fun _ => none) ⟨"TAB", 3, [⟨"id", "autoincrement", []⟩]⟩).2.1
     (by decide),
   (c3_delimiter_normalization (fun _ => none) ⟨"|", 3, [⟨"id", "autoincrement", []⟩]⟩).2.2
     (by decide) (by decide) (by decide) (by decide)⟩

/-- C6 (counterexample): with `rowCount = 1` the body loop never runs, so an
otherwise-valid request carrying only an unknown generator succeeds with a
header-only output instead of returning the unknown-function error. -/
theorem c6_counterexample :
(CSV (fun _ => none) ⟨",", 1, [⟨"name", "nonexistent", []⟩]⟩).1 = .ok ("name\n") ∧
(CSV (fun _ => none) ⟨",", 1, [⟨"name", "nonexistent", []⟩]⟩).1 ≠
  .error (unknownFunctionErr ("nonexistent")) := by
  constructor <;> decide

/-- C6 (amended): for every request that passes validation with
`rowCount ≥ 2` (so that the body loop runs at least once), whose field list
contains a field that is not `"autoincrement"` and is absent from the
registry, and where every field before it resolves successfully in the
first body row, `CSV` returns the unknown-function error naming that
generator, with no output. -/
theorem c6_unknown_function {lookup : Lookup} {co : CSVOptions}
(hd : normalizeDelimiter co.Delimiter = "," ∨ normalizeDelimiter co.Delimiter = "\t")
(hr : 2 ≤ co.RowCount) {pre post : List Field} {fld : Field}
(hsplit : co.Fields = pre ++ fld :: post)
(hpre : ∀ f ∈ pre, ∃ v, cellValue lookup 1 f = .ok v)
(hna : fld.Function ≠ "autoincrement")
(hlk : lookup fld.Function = none) :
(CSV lookup co).1 = .error (unknownFunctionErr fld.Function) := by
  have hf : co.Fields ≠ [] := by
    rw [hsplit]
    simp
  have hcell : cellValue lookup 1 fld = .error (unknownFunctionErr fld.Function) := by
    simp [cellValue, hna, hlk]
  have hrow : buildRow lookup 1 co.Fields = .error (unknownFunctionErr fld.Function) := by
    rw [hsplit]
    exact buildRow_prefix_error hpre hcell
  have hbody : buildBody lookup co.Fields co.RowCount =
      .error (unknownFunctionErr fld.Function) := by
    simp only [buildBody]
    refine buildRows_prefix_error (m := 0) (by omega)
      (fun m2 hm2 => absurd hm2 (by omega)) ?_
    simpa using hrow
  rw [CSV_bodyError_spec hd hf (by omega) hbody]

theorem c6_unknown_function_witness :
(CSV (fun _ => none) ⟨",", 2, [⟨"name", "nonexistent", []⟩]⟩).1 =
  .error (unknownFunctionErr ("nonexistent")) :=
  @c6_unknown_function (fun _ => none) ⟨",", 2, [⟨"name", "nonexistent", []⟩]⟩
    (by decide) (by decide) [] [] ⟨"name", "nonexistent", []⟩
    rfl (by simp) (by decide) rfl

/-- C7: if, while building body row `k`, some field's registry generator
returns an error — every earlier row and every earlier cell of row `k`
having resolved — then `CSV` returns exactly that error with no output;
and a successful registry invocation is converted to its cell string
uniformly by the `%v` default formatting. -/
theorem c7_error_propagation {lookup : Lookup} {co : CSVOptions}
(hd : normalizeDelimiter co.Delimiter = "," ∨ normalizeDelimiter co.Delimiter = "\t")
(hf : co.Fields ≠ [])
{k : Nat} (hk1 : 1 ≤ k) (hk2 : (k : Int) < co.RowCount)
(hprev : ∀ m : Nat, 1 ≤ m → m < k → ∃ r, buildRow lookup (m : Int) co.Fields = .ok r)
{pre post : List Field} {fld : Field} {info : Info} {e : String}
(hsplit : co.Fields = pre ++ fld :: post)
(hpre : ∀ f ∈ pre, ∃ v, cellValue lookup (k : Int) f = .ok v)
(hna : fld.Function ≠ "autoincrement")
(hlk : lookup fld.Function = some info)
(hcall : info.Call fld.Params = .error e) :
(CSV lookup co).1 = .error e ∧
∀ (i : Int) (g : Field) (gi : Info) (v : GoValue),
  g.Function ≠ "autoincrement" → lookup g.Function = some gi →
  gi.Call g.Params = .ok v → cellValue lookup i g = .ok (sprintfV v) := by
  constructor
  · have hcell : cellValue lookup (k : Int) fld = .error e := by
      simp [cellValue, hna, hlk, hcall]
    have hrow : buildRow lookup (k : Int) co.Fields = .error e := by
      rw [hsplit]
      exact buildRow_prefix_error hpre hcell
    have hbody : buildBody lookup co.Fields co.RowCount = .error e := by
      simp only [buildBody]
      refine buildRows_prefix_error (m := k - 1) (by omega) ?_ ?_
      · intro m2 hm2
        obtain ⟨r, hrr⟩ := hprev (m2 + 1) (by omega) (by omega)
        refine ⟨r, ?_⟩
        rw [show (1 : Int) + (m2 : Int) = ((m2 + 1 : Nat) : Int) by push_cast; ring]
        exact hrr
      · rw [show (1 : Int) + ((k - 1 : Nat) : Int) = (k : Int) by omega]
        exact hrow
    rw [CSV_bodyError_spec hd hf (by omega) hbody]
  · intro i g gi v hg hgi hcall2
    simp [cellValue, hg, hgi, hcall2]

theorem c7_error_propagation_witness :
(CSV (fun n => if n = "boom" then some ⟨fun _ => .error ("kaboom")⟩
      else if n = "val" then some ⟨fun _ => .ok (.vStr ("hi"))⟩ else none)
  ⟨",", 2, [⟨"b", "boom", []⟩]⟩).1 = .error ("kaboom") ∧
cellValue (fun n => if n = "boom" then some ⟨fun _ => .error ("kaboom")⟩
      else if n = "val" then some ⟨fun _ => .ok (.vStr ("hi"))⟩ else none)
  5 ⟨"v", "val", []⟩ = .ok (sprintfV (.vStr ("hi"))) := by
  obtain ⟨h1, h2⟩ := @c7_error_propagation
    (fun n => if n = "boom" then some ⟨fun _ => .error ("kaboom")⟩
      else if n = "val" then some ⟨fun _ => .ok (.vStr ("hi"))⟩ else none)
    ⟨",", 2, [⟨"b", "boom", []⟩]⟩
    (by decide) (by decide) 1 (by decide) (by decide)
    (fun m h1 h2 => (by omega : False).elim)
    [] [] ⟨"b", "boom", []⟩ ⟨fun _ => .error ("kaboom")⟩ "kaboom"
    rfl (by simp) (by decide) rfl rfl
  exact ⟨h1, h2 5 ⟨"v", "val", []⟩ ⟨fun _ => .ok (.vStr ("hi"))⟩ (.vStr ("hi"))
    (by decide) rfl rfl⟩

/-! ### Round trip of the encoder against the RFC-4180 reader -/

theorem mk_data (s : String) : String.mk s.data = s := rfl

theorem hasChar_false {l : List Char} {c : Char} (h : hasChar l c = false) :
∀ x ∈ l, x ≠ c := by
  intro x hx
  simp only [hasChar, List.any_eq_false] at h
  simpa using h x hx

theorem takeWhile_append_all {p : Char → Bool} {l t : List Char}
(h : ∀ x ∈ l, p x = true) : (l ++ t).takeWhile p = l ++ t.takeWhile p := by
  induction l with
  | nil => simp
  | cons c cs ih =>
    have hc := h c (by simp)
    simp [List.takeWhile_cons, hc, ih (fun x hx => h x (by simp [hx]))]

theorem dropWhile_append_all {p : Char → Bool} {l t : List Char}
(h : ∀ x ∈ l, p x = true) : (l ++ t).dropWhile p = t.dropWhile p := by
  induction l with
  | nil => simp
  | cons c cs ih =>
    have hc := h c (by simp)
    simp [List.dropWhile_cons, hc, ih (fun x hx => h x (by simp [hx]))]

theorem fieldNeedsQuotes_of_special {d : Char} (hd : d = ',' ∨ d = '\t') {s : String}
(h : hasChar s.data d = true ∨ hasChar s.data '\n' = true ∨ hasChar s.data '"' = true) :
fieldNeedsQuotes d s = true := by
  have hne : ¬s.data = [] := by
    rcases h with h | h | h <;>
      (intro h0; rw [h0] at h; simp [hasChar] at h)
  have hds : ¬d = ' ' := by rcases hd with h | h <;> simp [h]
  by_cases hsp : s = "\\."
  · simp [fieldNeedsQuotes, hne, hsp]
  · have hcond : (hasChar s.data d || hasChar s.data '"' ||
        hasChar s.data '\r' || hasChar s.data '\n') = true := by
      rcases h with h | h | h <;> simp [h]
    simp [fieldNeedsQuotes, hne, hds, hsp, hcond]

theorem fieldNeedsQuotes_false_spec {d : Char} (hds : ¬d = ' ') {f : String}
(h : fieldNeedsQuotes d f = false) :
f.data = [] ∨ (hasChar f.data d = false ∧ hasChar f.data '"' = false ∧
  hasChar f.data '\n' = false) := by
  by_cases hne : f.data = []
  · exact Or.inl hne
  · right
    by_cases hsp : f = "\\."
    · rw [fieldNeedsQuotes, if_neg hne, if_pos hsp] at h
      cases h
    · rw [fieldNeedsQuotes, if_neg hne, if_neg hsp, if_neg hds] at h
      by_cases hcond : (hasChar f.data d || hasChar f.data '"' ||
          hasChar f.data '\r' || hasChar f.data '\n') = true
      · rw [if_pos hcond] at h
        cases h
      · simp only [Bool.or_eq_true, not_or, Bool.not_eq_true] at hcond
        exact ⟨hcond.1.1.1, hcond.1.1.2, hcond.2⟩

theorem readQuotedBody_cons (c : Char) (rest : List Char) :
readQuotedBody (c :: rest) =
  if c = '"' then
    match rest with
    | c2 :: rest2 =>
      if c2 = '"' then (readQuotedBody rest2).map (fun p => ( '"' :: p.1, p.2))
      else some ([], rest)
    | [] => some ([], [])
  else (readQuotedBody rest).map (fun p => (c :: p.1, p.2)) := by
  cases rest <;> rfl

theorem readQuotedBody_double {tail : List Char} (htq : tail.head? ≠ some '"')
(s : List Char) : readQuotedBody (doubleQuotes s ++ '"' :: tail) = some (s, tail) := by
  induction s with
  | nil =>
    simp only [doubleQuotes, List.nil_append]
    rw [readQuotedBody_cons, if_pos rfl]
    cases tail with
    | nil => rfl
    | cons c t2 =>
      have hc : ¬c = '"' := by simpa using htq
      simp [hc]
  | cons c s2 ih =>
    by_cases hc : c = '"'
    · subst hc
      have hdq2 : doubleQuotes ( '"' :: s2) = '"' :: '"' :: doubleQuotes s2 := by
        simp [doubleQuotes]
      rw [hdq2, List.cons_append, List.cons_append, readQuotedBody_cons, if_pos rfl]
      simp [ih]
    · simp only [doubleQuotes, if_neg hc, List.cons_append]
      rw [readQuotedBody_cons, if_neg hc]
      simp [ih]

theorem readField_writeField {d : Char} (hd : d = ',' ∨ d = '\t') {f : String}
{tail : List Char}
(htail : tail = [] ∨ ∃ c t2, tail = c :: t2 ∧ (c = d ∨ c = '\n')) :
readField d ((writeField d f).data ++ tail) = some (f.data, tail) := by
  have hdq : ¬d = '"' := by rcases hd with h | h <;> simp [h]
  have hdsp : ¬d = ' ' := by rcases hd with h | h <;> simp [h]
  have htq : tail.head? ≠ some '"' := by
    rcases htail with rfl | ⟨c, t2, rfl, hc⟩
    · simp
    · rcases hc with rfl | rfl
      · simp [hdq]
      · simp
  by_cases hq : fieldNeedsQuotes d f = true
  · simp only [writeField, hq, if_true]
    show readField d (( '"' :: (doubleQuotes f.data ++ [ '"' ])) ++ tail) = _
    rw [List.cons_append, List.append_assoc, List.singleton_append]
    simp only [readField, if_pos rfl]
    exact readQuotedBody_double htq f.data
  · have hq0 : writeField d f = f := by
      simp [writeField, hq]
    cases hfd : f.data with
    | nil =>
      rw [hq0, hfd, List.nil_append]
      rcases htail with rfl | ⟨c, t2, rfl, hc⟩
      · simp [readField, hfd]
      · have hcq : ¬c = '"' := by
          rcases hc with rfl | rfl
          · exact hdq
          · simp
        have hbc : bareChar d c = false := by
          rcases hc with rfl | rfl <;> simp [bareChar]
        simp [readField, hcq, hbc, List.takeWhile_cons, List.dropWhile_cons, hfd]
    | cons c0 cs =>
      rcases fieldNeedsQuotes_false_spec hdsp (by simpa using hq) with hnil | ⟨hA, hB, hC⟩
      · rw [hfd] at hnil
        cases hnil
      · have hc0 : ¬c0 = '"' := hasChar_false hB c0 (by rw [hfd]; simp)
        rw [hq0, hfd, List.cons_append]
        simp only [readField, if_neg hc0]
        rw [← List.cons_append]
        have hall : ∀ x ∈ (c0 :: cs), bareChar d x = true := by
          intro x hx
          have hxd := hasChar_false hA x (by rw [hfd]; exact hx)
          have hxn := hasChar_false hC x (by rw [hfd]; exact hx)
          simp [bareChar, hxd, hxn]
        rw [takeWhile_append_all hall, dropWhile_append_all hall]
        rcases htail with rfl | ⟨c, t2, rfl, hc⟩
        · simp [hfd]
        · have hbc : bareChar d c = false := by
            rcases hc with rfl | rfl <;> simp [bareChar]
          simp [List.takeWhile_cons, List.dropWhile_cons, hbc, hfd]

theorem readRecordAux_succ (d : Char) (fuel : Nat) (input : List Char) :
readRecordAux d (fuel + 1) input =
  match readField d input with
  | none => none
  | some (f, rest) =>
    match rest with
    | [] => some ([String.mk f], [])
    | c :: rest2 =>
      if c = d then (readRecordAux d fuel rest2).map (fun p => (String.mk f :: p.1, p.2))
      else if c = '\n' then some ([String.mk f], rest2)
      else none := rfl

theorem readRecordAux_writeRecord {d : Char} (hd : d = ',' ∨ d = '\t')
(fs : List String) : ∀ (f : String) (rest : List Char),
readRecordAux d (fs.length + 1) (writeRecordChars d (f :: fs) ++ '\n' :: rest) =
  some (f :: fs, rest) := by
  induction fs with
  | nil =>
    intro f rest
    have hrf := @readField_writeField d hd f ( '\n' :: rest)
      (Or.inr ⟨'\n', rest, rfl, Or.inr rfl⟩)
    show readRecordAux d (0 + 1) ((writeField d f).data ++ '\n' :: rest) = some ([f], rest)
    have hdn : ¬('\n' : Char) = d := by rcases hd with h | h <;> simp [h]
    rw [readRecordAux_succ, hrf]
    simp [hdn, mk_data]
  | cons f2 fs2 ih =>
    intro f rest
    have hrf := @readField_writeField d hd f
      (d :: (writeRecordChars d (f2 :: fs2) ++ '\n' :: rest))
      (Or.inr ⟨d, _, rfl, Or.inl rfl⟩)
    have hassoc : writeRecordChars d (f :: f2 :: fs2) ++ '\n' :: rest =
        (writeField d f).data ++ (d :: (writeRecordChars d (f2 :: fs2) ++ '\n' :: rest)) := by
      simp [writeRecordChars]
    rw [hassoc]
    show readRecordAux d (fs2.length + 1 + 1) _ = _
    rw [readRecordAux_succ, hrf]
    simp [ih f2 rest, mk_data]

theorem readRecordAux_mono {d : Char} {fuel : Nat} {input : List Char}
{v : List String × List Char} (h : readRecordAux d fuel input = some v) :
∀ fuel2, fuel ≤ fuel2 → readRecordAux d fuel2 input = some v := by
  induction fuel generalizing input v with
  | zero => simp [readRecordAux] at h
  | succ n ih =>
    intro fuel2 hle
    obtain ⟨m, rfl⟩ : ∃ m, fuel2 = m + 1 := ⟨fuel2 - 1, by omega⟩
    simp only [readRecordAux] at h ⊢
    cases hfld : readField d input with
    | none => rw [hfld] at h; cases h
    | some p =>
      obtain ⟨f, rest⟩ := p
      rw [hfld] at h
      cases rest with
      | nil => exact h
      | cons c rest2 =>
        by_cases hc : c = d
        · simp only [hc, if_pos rfl] at h ⊢
          cases hrec : readRecordAux d n rest2 with
          | none => rw [hrec] at h; cases h
          | some q =>
            rw [hrec] at h
            rw [ih hrec m (by omega)]
            exact h
        · simp only [if_neg hc] at h ⊢
          exact h

theorem writeRecordChars_length_ge (d : Char) (f : String) (fs : List String) :
fs.length ≤ (writeRecordChars d (f :: fs)).length := by
  induction fs generalizing f with
  | nil => simp
  | cons f2 fs2 ih =>
    simp only [writeRecordChars, List.length_append, List.length_cons]
    have := ih f2
    omega

theorem readRecord_writeRecord {d : Char} (hd : d = ',' ∨ d = '\t')
{r : List String} (hne : r ≠ []) : readRecord d (writeRecord d r) = some (r, []) := by
  obtain ⟨f, fs, rfl⟩ := List.exists_cons_of_ne_nil hne
  have hkey := readRecordAux_writeRecord hd fs f ([] : List Char)
  have hchars : (writeRecord d (f :: fs)).data = writeRecordChars d (f :: fs) ++ '\n' :: [] := rfl
  show readRecordAux d ((writeRecord d (f :: fs)).data.length + 1)
    (writeRecord d (f :: fs)).data = some (f :: fs, [])
  rw [hchars]
  refine readRecordAux_mono hkey _ ?_
  have := writeRecordChars_length_ge d f fs
  simp only [List.length_append, List.length_cons, List.length_nil]
  omega

/-- C10: a cell value containing the delimiter, a newline or a quote is
written quoted with embedded quotes doubled, and reading the produced
record back with the RFC-4180 reader at the same delimiter returns every
original cell unchanged. -/
theorem c10_round_trip {d : Char} (hd : d = ',' ∨ d = '\t')
{r : List String} {j : Nat} (hj : j < r.length)
(hc : hasChar (r.get ⟨j, hj⟩).data d = true ∨ hasChar (r.get ⟨j, hj⟩).data '\n' = true ∨
      hasChar (r.get ⟨j, hj⟩).data '"' = true) :
writeField d (r.get ⟨j, hj⟩) =
  String.mk ( '"' :: doubleQuotes (r.get ⟨j, hj⟩).data ++ [ '"' ]) ∧
readRecord d (writeRecord d r) = some (r, []) := by
  constructor
  · simp only [writeField, fieldNeedsQuotes_of_special hd hc, if_true]
  · refine readRecord_writeRecord hd ?_
    rintro rfl
    exact absurd hj (by simp)

theorem c10_round_trip_witness :
writeField ',' ((["a", "h,i"] : List String).get ⟨1, by decide⟩) =
  String.mk ( '"' :: doubleQuotes ((["a", "h,i"] : List String).get ⟨1, by decide⟩).data
    ++ [ '"' ]) ∧
readRecord ',' (writeRecord ',' ["a", "h,i"]) = some (["a", "h,i"], []) :=
  c10_round_trip (d := ',') (r := ["a", "h,i"]) (j := 1)
    (Or.inl rfl) (by decide) (by decide)

end Gofakeit
